import Mathlib

/-!
Verification of `compile_and_execute_template.py` against its design
specification.  The Python source is shallowly embedded: pure data
manipulation (dict merge, path/name computation, the rendered-text
evaluation step) is translated into executable Lean functions, and the
effectful orchestration (file system, CloudFormation calls, `sys.exit`)
is modelled by explicit state passing over a trace of remote calls and
written files, with the external collaborators (boto3 responses, jinja2
rendering, `yaml.safe_load`) supplied as oracle fields of a `World`
record, as the spec treats them as external collaborators.
-/

set_option autoImplicit false

namespace CT

/-! ## Association-list model of Python dicts

`merge_vars_file` (source lines 149-157) does
`custom_values.update(common_values); return custom_values`.
A CPython dict is a finite map with unique keys that preserves insertion
order; `d.update(src)` assigns `d[k] = v` for each pair of `src` in
order, replacing the value in place for an existing key and appending a
new key at the end.  We model a dict as an association list whose keys
are unique (the hypotheses of the merge theorems record that invariant),
and model single-key assignment and `update` accordingly. -/

variable {α : Type}

/-- Keys of an association list, in insertion order. -/
def keys (l : List (String × α)) : List String := l.map Prod.fst

/-- Value stored for key `k` (Python `d[k]` / `d.get(k)`). -/
def lookup (l : List (String × α)) (k : String) : Option α :=
  (l.find? (fun p => p.1 == k)).map Prod.snd

/-- Python dict assignment `d[k] = v` on an association list with unique
keys: replace the entry for `k` in place if present, else append. -/
def updateKey : List (String × α) → String → α → List (String × α)
  | [], k, v => [(k, v)]
  | (k1, v1) :: rest, k, v =>
    if k1 == k then (k, v) :: rest else (k1, v1) :: updateKey rest k v

/-- Python `d.update(src)`: assign every pair of `src` into `d`, in order. -/
def dictUpdate (d src : List (String × α)) : List (String × α) :=
  src.foldl (fun acc p => updateKey acc p.1 p.2) d

/-- The merge performed by `merge_vars_file` (source line 155):
`custom_values.update(common_values)` and return `custom_values`, so the
shared-defaults (`common`) entries are assigned over the
environment-specific (`custom`) ones. -/
def merge_vars_dicts (common custom : List (String × α)) : List (String × α) :=
  dictUpdate custom common

theorem keys_nil : keys ([] : List (String × α)) = [] := rfl

theorem keys_cons (k1 : String) (v1 : α) (rest : List (String × α)) :
    keys ((k1, v1) :: rest) = k1 :: keys rest := rfl

theorem lookup_nil (k : String) : lookup ([] : List (String × α)) k = none := rfl

theorem lookup_cons (k1 : String) (v1 : α) (rest : List (String × α)) (k : String) :
    lookup ((k1, v1) :: rest) k = if k1 == k then some v1 else lookup rest k := by
  by_cases h : k1 == k <;> simp [lookup, List.find?, h]

theorem lookup_updateKey_self (l : List (String × α)) (k : String) (v : α) :
    lookup (updateKey l k v) k = some v := by
  induction l with
  | nil => simp [updateKey, lookup, List.find?]
  | cons p rest ih =>
    obtain ⟨k1, v1⟩ := p
    by_cases h : k1 == k
    · simp [updateKey, h, lookup, List.find?]
    · simp [updateKey, h, lookup_cons, ih]

theorem lookup_updateKey_other (l : List (String × α)) (k k2 : String) (v : α)
    (hne : k2 ≠ k) : lookup (updateKey l k v) k2 = lookup l k2 := by
  have hbeq : (k == k2) = false := by
    simp only [beq_eq_false_iff_ne, Ne]
    exact fun h => hne h.symm
  induction l with
  | nil => simp [updateKey, lookup_cons, hbeq, lookup_nil]
  | cons p rest ih =>
    obtain ⟨k1, v1⟩ := p
    by_cases h : k1 == k
    · have hk1 : k1 = k := by simpa using h
      subst hk1
      simp [updateKey, lookup_cons, hbeq]
    · simp [updateKey, h, lookup_cons, ih]

theorem keys_updateKey (l : List (String × α)) (k : String) (v : α) :
    keys (updateKey l k v) = if k ∈ keys l then keys l else keys l ++ [k] := by
  induction l with
  | nil => simp [updateKey, keys]
  | cons p rest ih =>
    obtain ⟨k1, v1⟩ := p
    by_cases h : k1 == k
    · have hk1 : k1 = k := by simpa using h
      subst hk1
      have hm2 : k1 ∈ keys ((k1, v1) :: rest) := by
        rw [keys_cons]; exact List.mem_cons_self _ _
      rw [if_pos hm2]
      simp [updateKey, keys_cons]
    · have hk1 : ¬ k1 = k := by simpa using h
      have hstep : updateKey ((k1, v1) :: rest) k v = (k1, v1) :: updateKey rest k v := by
        simp [updateKey, h]
      rw [hstep]
      by_cases hm : k ∈ keys rest
      · have hm2 : k ∈ keys ((k1, v1) :: rest) := by
          rw [keys_cons]; exact List.mem_cons_of_mem _ hm
        rw [if_pos hm2, keys_cons, ih, if_pos hm, keys_cons]
      · have hm2 : k ∉ keys ((k1, v1) :: rest) := by
          rw [keys_cons]
          intro hx
          rcases List.mem_cons.mp hx with h1 | h1
          · exact hk1 h1.symm
          · exact hm h1
        rw [if_neg hm2, keys_cons, ih, if_neg hm, keys_cons]
        rfl

theorem lookup_dictUpdate (d src : List (String × α)) (hnd : (keys src).Nodup) (k : String) :
    lookup (dictUpdate d src) k =
      if k ∈ keys src then lookup src k else lookup d k := by
  induction src generalizing d with
  | nil => simp [dictUpdate, keys]
  | cons p rest ih =>
    obtain ⟨k0, v0⟩ := p
    rw [keys_cons] at hnd
    have hnd0 : k0 ∉ keys rest := (List.nodup_cons.mp hnd).1
    have hndrest : (keys rest).Nodup := (List.nodup_cons.mp hnd).2
    have hstep : dictUpdate d ((k0, v0) :: rest) = dictUpdate (updateKey d k0 v0) rest := rfl
    rw [hstep, ih _ hndrest]
    by_cases hmem : k ∈ keys rest
    · have hk0 : ¬ k0 = k := fun h => hnd0 (h ▸ hmem)
      have hm2 : k ∈ keys ((k0, v0) :: rest) := by
        rw [keys_cons]; exact List.mem_cons_of_mem _ hmem
      rw [if_pos hmem, if_pos hm2, lookup_cons, if_neg]
      simpa using hk0
    · by_cases hk0 : k0 = k
      · subst hk0
        have hm2 : k0 ∈ keys ((k0, v0) :: rest) := by
          rw [keys_cons]; exact List.mem_cons_self _ _
        rw [if_neg hmem, if_pos hm2]
        simp [lookup_updateKey_self, lookup_cons]
      · have hm2 : k ∉ keys ((k0, v0) :: rest) := by
          rw [keys_cons]
          intro hx
          rcases List.mem_cons.mp hx with h1 | h1
          · exact hk0 h1.symm
          · exact hmem h1
        rw [if_neg hmem, if_neg hm2,
          lookup_updateKey_other d k0 k v0 (fun h => hk0 h.symm)]

theorem mem_keys_dictUpdate (d src : List (String × α)) (k : String) :
    k ∈ keys (dictUpdate d src) ↔ k ∈ keys d ∨ k ∈ keys src := by
  induction src generalizing d with
  | nil => simp [dictUpdate, keys]
  | cons p rest ih =>
    obtain ⟨k0, v0⟩ := p
    have hstep : dictUpdate d ((k0, v0) :: rest) = dictUpdate (updateKey d k0 v0) rest := rfl
    rw [hstep, ih, keys_updateKey, keys_cons]
    by_cases hm : k0 ∈ keys d
    · rw [if_pos hm]
      constructor
      · rintro (h | h)
        · exact Or.inl h
        · exact Or.inr (List.mem_cons_of_mem _ h)
      · rintro (h | h)
        · exact Or.inl h
        · rcases List.mem_cons.mp h with h1 | h1
          · subst h1; exact Or.inl hm
          · exact Or.inr h1
    · rw [if_neg hm]
      constructor
      · rintro (h | h)
        · rcases List.mem_append.mp h with h1 | h1
          · exact Or.inl h1
          · have h2 := List.mem_singleton.mp h1
            subst h2
            exact Or.inr (List.mem_cons_self _ _)
        · exact Or.inr (List.mem_cons_of_mem _ h)
      · rintro (h | h)
        · exact Or.inl (List.mem_append.mpr (Or.inl h))
        · rcases List.mem_cons.mp h with h1 | h1
          · subst h1
            exact Or.inl (List.mem_append.mpr (Or.inr (List.mem_singleton_self _)))
          · exact Or.inr h1

theorem nodup_keys_dictUpdate (d src : List (String × α)) (hnd : (keys d).Nodup) :
    (keys (dictUpdate d src)).Nodup := by
  induction src generalizing d with
  | nil => exact hnd
  | cons p rest ih =>
    obtain ⟨k0, v0⟩ := p
    have hstep : dictUpdate d ((k0, v0) :: rest) = dictUpdate (updateKey d k0 v0) rest := rfl
    rw [hstep]
    apply ih
    rw [keys_updateKey]
    by_cases hm : k0 ∈ keys d
    · rw [if_pos hm]; exact hnd
    · rw [if_neg hm]
      exact List.Nodup.append hnd (List.nodup_singleton k0)
        (List.disjoint_singleton.mpr hm)

/-- C3: for every key present in both the shared-defaults set and the
environment-specific set, the merged value set produced by
`merge_vars_file` (source line 155: `custom_values.update(common_values)`)
maps that key to the shared-defaults value: shared defaults win on
conflict. -/
theorem merge_common_wins {α : Type} (common custom : List (String × α))
    (hcommon : (keys common).Nodup) (hcustom : (keys custom).Nodup) (k : String)
    (hkcommon : k ∈ keys common) (hkcustom : k ∈ keys custom) :
    lookup (merge_vars_dicts common custom) k = lookup common k := by
  rw [merge_vars_dicts, lookup_dictUpdate custom common hcommon k, if_pos hkcommon]

/-- Witness for `merge_common_wins` at a concrete overlapping key. -/
theorem merge_common_wins_witness :
    lookup (merge_vars_dicts [("a", 1), ("b", 2)] [("a", 9), ("c", 3)]) "a" =
      lookup [("a", 1), ("b", 2)] "a" :=
  merge_common_wins [("a", 1), ("b", 2)] [("a", 9), ("c", 3)]
    (by decide) (by decide) "a" (by decide) (by decide)

/-- C4: keys unique to either source pass through to the merged value
set unchanged, and the merged key set is exactly the union of the two
source key sets with every key appearing exactly once. -/
theorem merge_union_exactly_once {α : Type} (common custom : List (String × α))
    (hcommon : (keys common).Nodup) (hcustom : (keys custom).Nodup) :
    (∀ k, k ∈ keys common → k ∉ keys custom →
        lookup (merge_vars_dicts common custom) k = lookup common k)
    ∧ (∀ k, k ∉ keys common → k ∈ keys custom →
        lookup (merge_vars_dicts common custom) k = lookup custom k)
    ∧ (∀ k, k ∈ keys (merge_vars_dicts common custom) ↔
        k ∈ keys common ∨ k ∈ keys custom)
    ∧ (∀ k, k ∈ keys common ∨ k ∈ keys custom →
        (keys (merge_vars_dicts common custom)).count k = 1) := by
  refine ⟨?_, ?_, ?_, ?_⟩
  · intro k hkc _
    rw [merge_vars_dicts, lookup_dictUpdate custom common hcommon k, if_pos hkc]
  · intro k hkc hku
    rw [merge_vars_dicts, lookup_dictUpdate custom common hcommon k, if_neg hkc]
  · intro k
    rw [merge_vars_dicts, mem_keys_dictUpdate]
    tauto
  · intro k hk
    have hmem : k ∈ keys (merge_vars_dicts common custom) := by
      rw [merge_vars_dicts, mem_keys_dictUpdate]; tauto
    have hnd : (keys (merge_vars_dicts common custom)).Nodup :=
      nodup_keys_dictUpdate custom common hcustom
    exact List.count_eq_one_of_mem hnd hmem

/-- Witness for `merge_union_exactly_once` at concrete inputs. -/
theorem merge_union_exactly_once_witness :
    (keys (merge_vars_dicts [("a", 1), ("b", 2)] [("a", 9), ("c", 3)])).count "c" = 1 :=
  (merge_union_exactly_once [("a", 1), ("b", 2)] [("a", 9), ("c", 3)]
      (by decide) (by decide)).2.2.2 "c" (Or.inr (by decide))

/-! ## Character-level model of the Python string operations

`init_variables` (source lines 205-240) computes
`t_file_name = t.split('/')[-1]`,
`path = t.replace(t_file_name, '')`,
`clean_name = t_file_name.replace('.yaml', '').replace('.yml', '')`,
`json_file = f'{path}{clean_name}.json'` and
`stack_name = f'ct-{env}-base-{clean_name}-stack'`.
Python `str.replace` replaces every non-overlapping occurrence of the
pattern, scanning left to right; `str.split(sep)` splits at every
occurrence of the separator and `[-1]` takes the last group.  We model
both on `List Char`. -/

/-- Boolean test that `p` is a prefix of the second list. -/
def isPre : List Char → List Char → Bool
  | [], _ => true
  | _ :: _, [] => false
  | p :: ps, c :: cs => p == c && isPre ps cs

theorem isPre_refl (l : List Char) : isPre l l = true := by
  induction l with
  | nil => rfl
  | cons c cs ih => simp [isPre, ih]

theorem isPre_iff (p l : List Char) : isPre p l = true ↔ ∃ t, l = p ++ t := by
  induction p generalizing l with
  | nil => simp [isPre]
  | cons a ps ih =>
    cases l with
    | nil => simp [isPre]
    | cons c cs =>
      simp only [isPre, Bool.and_eq_true, beq_iff_eq, ih, List.cons_append, List.cons.injEq]
      constructor
      · rintro ⟨h1, t, h2⟩
        exact ⟨t, h1.symm, h2⟩
      · rintro ⟨t, h1, h2⟩
        exact ⟨h1.symm, t, h2⟩

/-- Number of positions of the list at which `pat` occurs (all positions,
including overlapping ones; used only as a side condition stating that a
pattern occurs exactly once or not at all). -/
def occCount (pat : List Char) : List Char → Nat
  | [] => 0
  | c :: rest => (if isPre pat (c :: rest) then 1 else 0) + occCount pat rest

/-- Python `s.replace(pat, rep)` scanning, with explicit fuel (the fuel is
initialised to the length of the scanned list, which is enough because
every step consumes at least one character). -/
def replaceFuel (pat rep : List Char) : Nat → List Char → List Char
  | _, [] => []
  | 0, l => l
  | fuel + 1, c :: rest =>
    if isPre pat (c :: rest) then
      rep ++ replaceFuel pat rep fuel (rest.drop (pat.length - 1))
    else
      c :: replaceFuel pat rep fuel rest

/-- Python `s.replace(pat, rep)` on `List Char`.  For the empty pattern
Python inserts `rep` at every position; every call in this program passes
`rep = ''`, for which Python leaves the string unchanged, which is what
the guard returns. -/
def replaceL (pat rep l : List Char) : List Char :=
  if pat = [] then l else replaceFuel pat rep l.length l

/-- Python `s.split(sep)` for a single-character separator. -/
def splitOnCharL (sep : Char) : List Char → List (List Char)
  | [] => [[]]
  | c :: rest =>
    if c = sep then [] :: splitOnCharL sep rest
    else
      match splitOnCharL sep rest with
      | [] => [[c]]
      | g :: gs => (c :: g) :: gs

/-- Python `xs[-1]` on a non-empty list (split never returns an empty
list; the default is never reached). -/
def lastD : List (List Char) → List Char
  | [] => []
  | [g] => g
  | _ :: g :: gs => lastD (g :: gs)

theorem replaceFuel_nil (pat rep : List Char) (fuel : Nat) :
    replaceFuel pat rep fuel [] = [] := by
  cases fuel <;> rfl

theorem replaceFuel_of_occCount_zero (pat rep l : List Char) (h : occCount pat l = 0)
    (fuel : Nat) : replaceFuel pat rep fuel l = l := by
  induction l generalizing fuel with
  | nil => exact replaceFuel_nil pat rep fuel
  | cons c rest ih =>
    cases fuel with
    | zero => rfl
    | succ f =>
      rw [occCount] at h
      have hpre : isPre pat (c :: rest) = false := by
        cases hp : isPre pat (c :: rest)
        · rfl
        · rw [hp] at h; simp at h
      have hrest : occCount pat rest = 0 := by
        rw [hpre] at h; simpa using h
      rw [replaceFuel, hpre]
      simp [ih hrest]

theorem occCount_append_self_pos (pat xs : List Char) (hne : pat ≠ []) :
    1 ≤ occCount pat (xs ++ pat) := by
  induction xs with
  | nil =>
    obtain ⟨p, ps, rfl⟩ : ∃ p ps, pat = p :: ps := by
      cases pat with
      | nil => exact absurd rfl hne
      | cons p ps => exact ⟨p, ps, rfl⟩
    rw [List.nil_append, occCount, isPre_refl, if_pos rfl]
    omega
  | cons x xs ih =>
    rw [List.cons_append, occCount]
    omega

theorem replaceFuel_end_occurrence (pat xs : List Char) (hne : pat ≠ [])
    (honce : occCount pat (xs ++ pat) = 1) (fuel : Nat)
    (hfuel : (xs ++ pat).length ≤ fuel) :
    replaceFuel pat [] fuel (xs ++ pat) = xs := by
  induction xs generalizing fuel with
  | nil =>
    obtain ⟨p, ps, rfl⟩ : ∃ p ps, pat = p :: ps := by
      cases pat with
      | nil => exact absurd rfl hne
      | cons p ps => exact ⟨p, ps, rfl⟩
    rw [List.nil_append] at hfuel ⊢
    cases fuel with
    | zero => simp at hfuel
    | succ f =>
      rw [replaceFuel, isPre_refl]
      simp only [if_true, List.nil_append]
      have hdrop : ps.drop ((p :: ps).length - 1) = [] := by
        simp [List.drop_length]
      rw [hdrop, replaceFuel_nil]
  | cons x xs ih =>
    cases fuel with
    | zero => simp at hfuel
    | succ f =>
      rw [List.cons_append] at honce hfuel ⊢
      rw [occCount] at honce
      have htail : 1 ≤ occCount pat (xs ++ pat) := occCount_append_self_pos pat xs hne
      have hpre : isPre pat (x :: (xs ++ pat)) = false := by
        cases hp : isPre pat (x :: (xs ++ pat))
        · rfl
        · rw [hp] at honce; simp at honce; omega
      rw [replaceFuel, hpre]
      simp only [Bool.false_eq_true, if_false]
      have honce2 : occCount pat (xs ++ pat) = 1 := by
        rw [hpre] at honce; simpa using honce
      have hfuel2 : (xs ++ pat).length ≤ f := by
        simpa using Nat.lt_succ_iff.mp (Nat.lt_of_lt_of_le (by simp) hfuel)
      rw [ih honce2 f hfuel2]

theorem replaceL_of_occCount_zero (pat rep l : List Char) (h : occCount pat l = 0) :
    replaceL pat rep l = l := by
  rw [replaceL]
  by_cases hp : pat = []
  · rw [if_pos hp]
  · rw [if_neg hp, replaceFuel_of_occCount_zero pat rep l h]

theorem replaceL_end_occurrence (pat xs : List Char) (hne : pat ≠ [])
    (honce : occCount pat (xs ++ pat) = 1) :
    replaceL pat [] (xs ++ pat) = xs := by
  rw [replaceL, if_neg hne]
  exact replaceFuel_end_occurrence pat xs hne honce _ (Nat.le_refl _)

theorem splitOnCharL_ne_nil (sep : Char) (l : List Char) : splitOnCharL sep l ≠ [] := by
  induction l with
  | nil => simp [splitOnCharL]
  | cons c rest ih =>
    rw [splitOnCharL]
    by_cases h : c = sep
    · simp [h]
    · rw [if_neg h]
      cases hs : splitOnCharL sep rest with
      | nil => simp
      | cons g gs => simp

theorem splitOnCharL_of_not_mem (sep : Char) (l : List Char) (h : sep ∉ l) :
    splitOnCharL sep l = [l] := by
  induction l with
  | nil => rfl
  | cons c rest ih =>
    have hc : ¬ c = sep := fun hx => h (hx ▸ List.mem_cons_self _ _)
    have hrest : sep ∉ rest := fun hx => h (List.mem_cons_of_mem _ hx)
    rw [splitOnCharL, if_neg hc, ih hrest]

theorem splitOnCharL_length_ge_two (sep : Char) (l : List Char) (h : sep ∈ l) :
    2 ≤ (splitOnCharL sep l).length := by
  induction l with
  | nil => simp at h
  | cons c rest ih =>
    rw [splitOnCharL]
    by_cases hc : c = sep
    · rw [if_pos hc, List.length_cons]
      have := splitOnCharL_ne_nil sep rest
      have : 1 ≤ (splitOnCharL sep rest).length := by
        cases hs : splitOnCharL sep rest with
        | nil => exact absurd hs (splitOnCharL_ne_nil sep rest)
        | cons g gs => simp
      omega
    · have hrest : sep ∈ rest := by
        rcases List.mem_cons.mp h with h1 | h1
        · exact absurd h1.symm hc
        · exact h1
      rw [if_neg hc]
      cases hs : splitOnCharL sep rest with
      | nil => exact absurd hs (splitOnCharL_ne_nil sep rest)
      | cons g gs =>
        have := ih hrest
        rw [hs] at this
        simpa using this

theorem lastD_cons_cons (a b : List Char) (l : List (List Char)) :
    lastD (a :: b :: l) = lastD (b :: l) := rfl

theorem lastD_splitOnCharL (sep : Char) (dirL fnameL : List Char)
    (hf : sep ∉ fnameL) (hd : dirL = [] ∨ dirL.getLast? = some sep) :
    lastD (splitOnCharL sep (dirL ++ fnameL)) = fnameL := by
  induction dirL with
  | nil => rw [List.nil_append, splitOnCharL_of_not_mem sep fnameL hf]; rfl
  | cons c d ih =>
    rcases hd with hd | hd
    · exact absurd hd (List.cons_ne_nil c d)
    cases d with
    | nil =>
      have hc : c = sep := by simpa using hd
      rw [List.cons_append, List.nil_append, splitOnCharL, if_pos hc,
        splitOnCharL_of_not_mem sep fnameL hf]
      rfl
    | cons d0 d1 =>
      have hd2 : (d0 :: d1).getLast? = some sep := by
        rwa [List.getLast?_cons_cons] at hd
      have ihd := ih (Or.inr hd2)
      have hsepd : sep ∈ d0 :: d1 := by
        rcases List.mem_getLast?_eq_getLast (by rw [hd2]; rfl) with ⟨hne2, hx⟩
        rw [hx]
        exact List.getLast_mem hne2
      have hsep2 : sep ∈ (d0 :: d1) ++ fnameL := List.mem_append.mpr (Or.inl hsepd)
      rw [List.cons_append, splitOnCharL]
      by_cases hc : c = sep
      · rw [if_pos hc]
        cases hs : splitOnCharL sep ((d0 :: d1) ++ fnameL) with
        | nil => exact absurd hs (splitOnCharL_ne_nil sep _)
        | cons g gs =>
          rw [lastD_cons_cons]
          rw [hs] at ihd
          exact ihd
      · rw [if_neg hc]
        cases hs : splitOnCharL sep ((d0 :: d1) ++ fnameL) with
        | nil => exact absurd hs (splitOnCharL_ne_nil sep _)
        | cons g gs =>
          have hlen := splitOnCharL_length_ge_two sep _ hsep2
          rw [hs] at hlen ihd
          cases gs with
          | nil => simp at hlen
          | cons g1 gs1 =>
            rw [lastD_cons_cons]
            rw [lastD_cons_cons] at ihd
            exact ihd

theorem toList_append (a b : String) : (a ++ b).toList = a.toList ++ b.toList := rfl

/-! ## Name and path computation of `init_variables` (source lines 205-224) -/

/-- Source line 207: `values_file = f'cf_vars/{env}.yml'`. -/
def values_file_of (env : String) : String := "cf_vars/" ++ env ++ ".yml"

/-- Source line 212: `t_file_name = t.split('/')[-1]`. -/
def t_file_name_of (t : String) : String := (lastD (splitOnCharL '/' t.toList)).asString

/-- Python `s.replace(pat, rep)` on strings. -/
def pyReplace (s pat rep : String) : String :=
  (replaceL pat.toList rep.toList s.toList).asString

/-- Source line 215: `path = t.replace(t_file_name, '')`. -/
def path_of (t : String) : String := pyReplace t (t_file_name_of t) ""

/-- Source line 218:
`clean_name = t_file_name.replace('.yaml', '').replace('.yml', '')`. -/
def clean_name_of (t : String) : String :=
  pyReplace (pyReplace (t_file_name_of t) ".yaml" "") ".yml" ""

/-- Source line 220: `json_file = f'{path}{clean_name}.json'`. -/
def json_file_of (t : String) : String := path_of t ++ clean_name_of t ++ ".json"

/-- Source line 224: `stack_name = f'ct-{env}-base-{clean_name}-stack'`. -/
def stack_name_of (env t : String) : String :=
  "ct-" ++ env ++ "-base-" ++ clean_name_of t ++ "-stack"

/-- C9 fails as stated: for the template path `templates/my.yml.yaml`,
whose basename is `my.yml.yaml`, i.e. stem `b = my.yml` with extension
`.yaml`, the code removes every occurrence of `.yaml` and `.yml` from the
basename (source line 218), so the computed stack name is
`ct-prod-base-my-stack`, not `ct-prod-base-my.yml-stack`, and the
parameter-template file is `templates/my.json`, not
`templates/my.yml.json`. -/
theorem stack_name_deviates_on_dotted_stem :
    t_file_name_of "templates/my.yml.yaml" = "my.yml" ++ ".yaml"
    ∧ stack_name_of "prod" "templates/my.yml.yaml" = "ct-prod-base-my-stack"
    ∧ stack_name_of "prod" "templates/my.yml.yaml" ≠
        "ct-" ++ "prod" ++ "-base-" ++ "my.yml" ++ "-stack"
    ∧ json_file_of "templates/my.yml.yaml" = "templates/my.json"
    ∧ json_file_of "templates/my.yml.yaml" ≠ "templates/" ++ "my.yml" ++ ".json" := by
  decide

/-- C9 (amended): for every environment `e` and template path `dir ++ b
++ ext` with extension `ext` equal to `.yaml` or `.yml`, where the
directory part `dir` is empty or ends in `/`, the stem `b` contains no
`/`, the extension is the only occurrence of `.yaml`/`.yml` in the
basename, and the basename occurs exactly once as a substring of the
path, the computed stack name is `ct-<e>-base-<b>-stack` and the
parameter-template file is `<dir><b>.json`, co-located with the
template. -/
theorem init_variables_names (e dir b ext : String)
    (hb : ('/' : Char) ∉ b.toList)
    (hcase :
      (ext = ".yaml" ∧ occCount ".yaml".toList (b ++ ext).toList = 1
        ∧ occCount ".yml".toList b.toList = 0)
      ∨ (ext = ".yml" ∧ occCount ".yaml".toList (b ++ ext).toList = 0
        ∧ occCount ".yml".toList (b ++ ext).toList = 1))
    (hdir : dir = "" ∨ dir.toList.getLast? = some '/')
    (honce : occCount (b ++ ext).toList (dir ++ (b ++ ext)).toList = 1) :
    t_file_name_of (dir ++ (b ++ ext)) = b ++ ext
    ∧ stack_name_of e (dir ++ (b ++ ext)) = "ct-" ++ e ++ "-base-" ++ b ++ "-stack"
    ∧ json_file_of (dir ++ (b ++ ext)) = dir ++ b ++ ".json" := by
  have hemp : ("" : String).toList = [] := rfl
  have hext_slash : ('/' : Char) ∉ ext.toList := by
    rcases hcase with ⟨hx, _, _⟩ | ⟨hx, _, _⟩ <;> subst hx <;> decide
  have hext_ne : ext.toList ≠ [] := by
    rcases hcase with ⟨hx, _, _⟩ | ⟨hx, _, _⟩ <;> subst hx <;> decide
  have htl : (dir ++ (b ++ ext)).toList = dir.toList ++ (b ++ ext).toList :=
    toList_append _ _
  have hfl : (b ++ ext).toList = b.toList ++ ext.toList := toList_append _ _
  have hf_slash : ('/' : Char) ∉ (b ++ ext).toList := by
    rw [hfl]
    intro hx
    rcases List.mem_append.mp hx with h1 | h1
    · exact hb h1
    · exact hext_slash h1
  have hf_ne : (b ++ ext).toList ≠ [] := by
    rw [hfl]
    intro hx
    exact hext_ne (List.append_eq_nil.mp hx).2
  have hdirL : dir.toList = [] ∨ dir.toList.getLast? = some '/' := by
    rcases hdir with h | h
    · subst h; exact Or.inl rfl
    · exact Or.inr h
  rw [htl] at honce
  have hbase : t_file_name_of (dir ++ (b ++ ext)) = b ++ ext := by
    rw [t_file_name_of, htl,
      lastD_splitOnCharL '/' dir.toList (b ++ ext).toList hf_slash hdirL,
      String.asString_toList]
  have hpath : path_of (dir ++ (b ++ ext)) = dir := by
    rw [path_of, hbase, pyReplace, hemp, htl,
      replaceL_end_occurrence (b ++ ext).toList dir.toList hf_ne honce,
      String.asString_toList]
  have hclean : clean_name_of (dir ++ (b ++ ext)) = b := by
    rw [clean_name_of, hbase]
    rcases hcase with ⟨hx, h1, h2⟩ | ⟨hx, h1, h2⟩
    · subst hx
      have hflx : (b ++ ".yaml").toList = b.toList ++ ".yaml".toList :=
        toList_append _ _
      have h1x : occCount ".yaml".toList (b.toList ++ ".yaml".toList) = 1 := by
        rw [← hflx]; exact h1
      have hinner : pyReplace (b ++ ".yaml") ".yaml" "" = b.toList.asString := by
        rw [pyReplace, hemp, hflx,
          replaceL_end_occurrence ".yaml".toList b.toList (by decide) h1x]
      rw [hinner, pyReplace, hemp, List.toList_asString,
        replaceL_of_occCount_zero ".yml".toList [] b.toList h2,
        String.asString_toList]
    · subst hx
      have hflx : (b ++ ".yml").toList = b.toList ++ ".yml".toList :=
        toList_append _ _
      have h2x : occCount ".yml".toList (b.toList ++ ".yml".toList) = 1 := by
        rw [← hflx]; exact h2
      have hinner : pyReplace (b ++ ".yml") ".yaml" "" = b ++ ".yml" := by
        rw [pyReplace, hemp,
          replaceL_of_occCount_zero ".yaml".toList [] (b ++ ".yml").toList h1,
          String.asString_toList]
      rw [hinner, pyReplace, hemp, hflx,
        replaceL_end_occurrence ".yml".toList b.toList (by decide) h2x,
        String.asString_toList]
  refine ⟨hbase, ?_, ?_⟩
  · rw [stack_name_of, hclean]
  · rw [json_file_of, hpath, hclean]

/-- Witness for `init_variables_names`, matching the worked example of
the spec: environment `prod`, template `templates/vpc.yaml`. -/
theorem init_variables_names_witness :
    t_file_name_of ("templates/" ++ ("vpc" ++ ".yaml")) = "vpc" ++ ".yaml"
    ∧ stack_name_of "prod" ("templates/" ++ ("vpc" ++ ".yaml")) =
        "ct-" ++ "prod" ++ "-base-" ++ "vpc" ++ "-stack"
    ∧ json_file_of ("templates/" ++ ("vpc" ++ ".yaml")) =
        "templates/" ++ "vpc" ++ ".json" :=
  init_variables_names "prod" "templates/" "vpc" ".yaml" (by decide)
    (Or.inl ⟨rfl, by decide, by decide⟩) (Or.inr (by decide)) (by decide)

/-! ## JSON values and the serialization of `save_to_file`

`save_to_file` (source lines 193-202) writes
`json.dumps(content, sort_keys=True, indent=4)`.  We model JSON values
and the dump format: objects are emitted with keys sorted by code-point
order and nested structures indented by four spaces per level, with
`", "`-free item separators (`,` followed by a newline) and `": "` key
separators, exactly as Python's `json.dumps` does with those arguments.
String escaping is modelled for the basic-multilingual-plane fragment
(`ensure_ascii` surrogate pairs for astral characters are out of the
modelled fragment; no string in this development contains one). -/

inductive J where
  | null
  | boolean (b : Bool)
  | num (n : Int)
  | str (s : String)
  | arr (elems : List J)
  | obj (fields : List (String × J))

/-- Code-point lexicographic order on character lists, matching Python
string comparison for the keys being sorted. -/
def charListLe : List Char → List Char → Bool
  | [], _ => true
  | _ :: _, [] => false
  | a :: as, b :: bs => if a = b then charListLe as bs else decide (a < b)

def strLe (a b : String) : Bool := charListLe a.toList b.toList

def insertByKey (kv : String × String) : List (String × String) → List (String × String)
  | [] => [kv]
  | h :: t => if strLe kv.1 h.1 then kv :: h :: t else h :: insertByKey kv t

/-- Insertion sort by key, modelling `sorted(d.items())` on unique keys. -/
def sortByKey : List (String × String) → List (String × String)
  | [] => []
  | h :: t => insertByKey h (sortByKey t)

def hexDigit (n : Nat) : Char :=
  if n < 10 then Char.ofNat (48 + n) else Char.ofNat (87 + n)

def hex4 (n : Nat) : String :=
  String.mk [hexDigit (n / 4096 % 16), hexDigit (n / 256 % 16),
    hexDigit (n / 16 % 16), hexDigit (n % 16)]

/-- JSON escaping of one character as `json.dumps` performs it with the
default `ensure_ascii=True` (BMP fragment). -/
def escChar (c : Char) : String :=
  if c = '\\' then "\\\\"
  else if c = '"' then "\\\""
  else if c = '\n' then "\\n"
  else if c = '\t' then "\\t"
  else if c = '\r' then "\\r"
  else if c = '\x08' then "\\b"
  else if c = '\x0c' then "\\f"
  else if c.toNat < 32 ∨ c.toNat > 126 then "\\u" ++ hex4 c.toNat
  else String.mk [c]

def escString (s : String) : String :=
  "\"" ++ String.join (s.toList.map escChar) ++ "\""

def spaces (n : Nat) : String := (List.replicate n ' ').asString

/-- One level of `json.dumps(·, sort_keys=True, indent=4)`: `level` is
the current indentation. -/
def jdump : Nat → J → String
  | _, .null => "null"
  | _, .boolean true => "true"
  | _, .boolean false => "false"
  | _, .num n => toString n
  | _, .str s => escString s
  | _, .arr [] => "[]"
  | level, .arr (e :: es) =>
    let items := (e :: es).attach.map
      (fun x => spaces (level + 4) ++ jdump (level + 4) x.1)
    "[\n" ++ String.intercalate ",\n" items ++ "\n" ++ spaces level ++ "]"
  | _, .obj [] => "\x7b\x7d"
  | level, .obj (f :: fs) =>
    let items := (f :: fs).attach.map
      (fun x => (x.1.1, jdump (level + 4) x.1.2))
    let rendered := (sortByKey items).map
      (fun kv => spaces (level + 4) ++ escString kv.1 ++ ": " ++ kv.2)
    "\x7b\n" ++ String.intercalate ",\n" rendered ++ "\n" ++ spaces level ++ "\x7d"
termination_by level j => sizeOf j
decreasing_by
  · have h := List.sizeOf_lt_of_mem x.2
    simp at h ⊢
    omega
  · obtain ⟨⟨k, v⟩, hx⟩ := x
    have h := List.sizeOf_lt_of_mem hx
    simp at h ⊢
    omega

/-- `json.dumps(content, sort_keys=True, indent=4)` at top level
(source line 197). -/
def json_dumps_sorted_indent4 (content : J) : String := jdump 0 content

/-! ## The second step of the Parameter Renderer (source line 172)

`fill_json` computes
`output = list(eval(jinja2.Template(parameter_file).render(values)))`:
the rendered text is handed to Python `eval`, which executes it as
code.  Full Python `eval` is not a translatable function; we embed its
restriction to the fragment of list literals of integer expressions with
`+`, on which it is faithful to the interpreter (`eval('[1+1]')` is
`[2]`).  For the comparison the spec requires, `json_safe_parse` is
modelled from the spec: the safe structured-data parse (strict JSON) of
the same fragment, which accepts only literals and never evaluates an
expression. -/

def skipWs : List Char → List Char
  | ' ' :: rest => skipWs rest
  | l => l

def digitsVal : List Char → Nat :=
  List.foldl (fun a c => 10 * a + (c.toNat - 48)) 0

def parseIntTok (l : List Char) : Option (Int × List Char) :=
  match skipWs l with
  | '-' :: rest =>
    let ds := rest.takeWhile Char.isDigit
    if ds = [] then none
    else some (-(digitsVal ds : Int), rest.dropWhile Char.isDigit)
  | l1 =>
    let ds := l1.takeWhile Char.isDigit
    if ds = [] then none
    else some ((digitsVal ds : Int), l1.dropWhile Char.isDigit)

/-- A `+`-chain of integer literals, evaluated (Python `eval` semantics on
the fragment) when `allowPlus` is true; with `allowPlus` false the `+` is
left unconsumed and the enclosing parser rejects, as a JSON parser does. -/
def parseSum (allowPlus : Bool) : Nat → List Char → Option (Int × List Char)
  | 0, _ => none
  | fuel + 1, l =>
    match parseIntTok l with
    | none => none
    | some (n, rest) =>
      match skipWs rest with
      | '+' :: rest2 =>
        if allowPlus then
          match parseSum allowPlus fuel rest2 with
          | none => none
          | some (m, r) => some (n + m, r)
        else some (n, '+' :: rest2)
      | r => some (n, r)

def parseItems (allowPlus : Bool) : Nat → List Char → Option (List Int × List Char)
  | 0, _ => none
  | fuel + 1, l =>
    match parseSum allowPlus (fuel + 1) l with
    | none => none
    | some (n, rest) =>
      match skipWs rest with
      | ',' :: r2 =>
        match parseItems allowPlus fuel r2 with
        | none => none
        | some (ns, r3) => some (n :: ns, r3)
      | r => some ([n], r)

def parseListInts (allowPlus : Bool) (s : String) : Option (List Int) :=
  match skipWs s.toList with
  | '[' :: rest =>
    match skipWs rest with
    | ']' :: r2 => if skipWs r2 = [] then some [] else none
    | r =>
      match parseItems allowPlus (r.length + 1) r with
      | none => none
      | some (ns, r1) =>
        match skipWs r1 with
        | ']' :: r2 => if skipWs r2 = [] then some ns else none
        | _ => none
  | _ => none

/-- Model of the second step of `fill_json` (source line 172): Python
`eval` of the rendered text, restricted to the integer-list fragment. -/
def fill_eval_step (rendered : String) : Option (List Int) :=
  parseListInts true rendered

/-- Modelled from the spec: the safe structured-data parse (strict JSON)
that the spec requires for step (b) of the Parameter Renderer, on the
same fragment, for comparison with `fill_eval_step`. -/
def json_safe_parse (rendered : String) : Option (List Int) :=
  parseListInts false rendered

/-- C1 fails on the code: on the rendered text `[1+1]` the second step of
`fill_json` executes the text as code and produces `[2]`, whereas the
safe structured-data parse the spec mandates rejects `[1+1]` (it is not
a JSON literal) while accepting the literal `[2]`.  The code's step is
execution of rendered code, not a safe parse. -/
theorem fill_step_evaluates_code :
    fill_eval_step "[1+1]" = some [2]
    ∧ json_safe_parse "[1+1]" = none
    ∧ json_safe_parse "[2]" = some [2] := by
  decide

/-! ## Effect-trace model of the orchestration

Each effectful Python function is translated into a Lean function that
threads an explicit effect record `Eff` (the ordered trace of
CloudFormation requests issued and files written) and returns
`Except (Nat × Eff)`: `.error (code, e)` models `sys.exit(code)` with
the effects performed up to that point, `.ok` a normal return.  The
environment the process runs in is a `World V`: the file system, the
outcome of each remote call, the randomness source, and the external
collaborators excluded from the spec's scope (jinja2 rendering,
`yaml.safe_load`, and the outcome of `eval` on the rendered text, whose
in-fragment behaviour is modelled concretely by `fill_eval_step`).
`V` is the type of YAML values. -/

/-- Error code carried by a boto3 `ClientError` response to
`describe_stacks`: a genuine not-found (`ValidationError`), or another
client error such as access denial or throttling. -/
inductive AwsErrorCode where
  | validationNotFound
  | accessDenied
  | throttling
  | other
deriving DecidableEq

inductive DescribeOutcome where
  | success
  | clientError (code : AwsErrorCode)
deriving DecidableEq

/-- A remote CloudFormation interaction, in the order issued. -/
inductive RemoteCall where
  | describeStacks (stackName : String)
  | createChangeSet (stackName changeSetName : String)
  | waitChangeSetCreateComplete (changeSetName stackName : String)
  | createStack (stackName : String)
  | waitStackCreateComplete (stackName : String)
deriving DecidableEq

/-- Observable effects of a run: remote calls issued and files written
(path, content). -/
structure Eff where
  calls : List RemoteCall
  written : List (String × String)
deriving DecidableEq

def emptyEff : Eff := ⟨[], []⟩

/-- Result of `init_variables` (source lines 228-234). -/
structure InitResult where
  valuesFile : String
  templateFileName : String
  jsonFile : String
  stackName : String
  stackBody : String
deriving DecidableEq

/-- The process environment: file system, remote-service behaviour,
randomness source, and the external collaborators. -/
structure World (V : Type) where
  fs : String → Option String
  describeOutcome : String → DescribeOutcome
  createChangeSetOk : Bool
  waitChangeSetOk : Bool
  createStackOk : Bool
  waitStackOk : Bool
  randChoice : Nat → Nat
  render : String → List (String × V) → String
  yamlParse : String → Option (List (String × V))
  evalList : String → Option (List J)

def effOf : Except (Nat × Eff) Eff → Eff
  | .ok e => e
  | .error (_, e) => e

/-- Source line 16: `COMMON_FILE_PATH = 'cf_vars/common.yml'`. -/
def COMMON_FILE_PATH : String := "cf_vars/common.yml"

/-- `string.ascii_uppercase + string.digits`, the default alphabet of
`id_generator` (source line 25). -/
def id_chars : String := "ABCDEFGHIJKLMNOPQRSTUVWXYZ0123456789"

/-- `id_generator` (source lines 25-26):
`''.join(random.choice(chars) for _ in range(size))`, with the
`random.choice` draws supplied by the world's randomness source as the
spec directs (one arbitrary index per position, reduced modulo the
alphabet size). -/
def id_generator {V : Type} (w : World V) (size : Nat) (chars : String) : String :=
  ((List.range size).map
    (fun i => chars.toList.getD (w.randChoice i % chars.toList.length) 'A')).asString

/-- `stack_exists` (source lines 29-41): issue `describe_stacks`; a
successful response yields `True`, and any `ClientError` whatsoever is
caught and yields `False`. -/
def stack_exists {V : Type} (w : World V) (stack_name : String) (e : Eff) : Bool × Eff :=
  let e1 : Eff := ⟨e.calls ++ [RemoteCall.describeStacks stack_name], e.written⟩
  match w.describeOutcome stack_name with
  | .success => (true, e1)
  | .clientError _ => (false, e1)

/-- `create_change_set` (source lines 59-92): build the change-set name
from a fresh 6-character draw, issue `create_change_set`, then block on
the `change_set_create_complete` waiter; any failure is caught and the
process exits with code 2. -/
def create_change_set {V : Type} (w : World V) (stack_name body : String)
    (parameters : List J) (e : Eff) : Except (Nat × Eff) Eff :=
  let random_id := id_generator w 6 id_chars
  let change_set_name := stack_name ++ "-" ++ random_id
  let e1 : Eff := ⟨e.calls ++ [RemoteCall.createChangeSet stack_name change_set_name],
    e.written⟩
  if w.createChangeSetOk then
    let e2 : Eff :=
      ⟨e1.calls ++ [RemoteCall.waitChangeSetCreateComplete change_set_name stack_name],
        e1.written⟩
    if w.waitChangeSetOk then .ok e2 else .error (2, e2)
  else .error (2, e1)

/-- `create_stack` (source lines 95-120): issue `create_stack`, then
block on the `stack_create_complete` waiter; any failure exits with 2. -/
def create_stack {V : Type} (w : World V) (stack_name body : String)
    (parameters : List J) (e : Eff) : Except (Nat × Eff) Eff :=
  let e1 : Eff := ⟨e.calls ++ [RemoteCall.createStack stack_name], e.written⟩
  if w.createStackOk then
    let e2 : Eff := ⟨e1.calls ++ [RemoteCall.waitStackCreateComplete stack_name],
      e1.written⟩
    if w.waitStackOk then .ok e2 else .error (2, e2)
  else .error (2, e1)

/-- `deploy_stack` (source lines 123-146): probe existence, then create a
change set for an existing stack or create the stack when absent. -/
def deploy_stack {V : Type} (w : World V) (init : InitResult)
    (json_parameters : List J) (e : Eff) : Except (Nat × Eff) Eff :=
  match stack_exists w init.stackName e with
  | (true, e1) => create_change_set w init.stackName init.stackBody json_parameters e1
  | (false, e1) => create_stack w init.stackName init.stackBody json_parameters e1

/-- `merge_vars_file` (source lines 149-161): load the shared defaults
file, load the environment values file, and merge with
`custom_values.update(common_values)`; any failure (missing file,
unparsable YAML) exits with 2. -/
def merge_vars_file {V : Type} (w : World V) (init : InitResult) (e : Eff) :
    Except (Nat × Eff) (List (String × V) × Eff) :=
  match w.fs COMMON_FILE_PATH with
  | none => .error (2, e)
  | some commonText =>
    match w.yamlParse commonText with
    | none => .error (2, e)
    | some common_values =>
      match w.fs init.valuesFile with
      | none => .error (2, e)
      | some customText =>
        match w.yamlParse customText with
        | none => .error (2, e)
        | some custom_values => .ok (merge_vars_dicts common_values custom_values, e)

/-- `fill_json` (source lines 164-178): read the parameter-template
file, merge the value files, render the template against the merged
values and evaluate the rendered text (the oracle outcome of the `eval`
call; see `fill_eval_step` for the concrete in-fragment model of that
step); any failure exits with 2. -/
def fill_json {V : Type} (w : World V) (init : InitResult) (e : Eff) :
    Except (Nat × Eff) (List J × Eff) :=
  match w.fs init.jsonFile with
  | none => .error (2, e)
  | some parameter_file =>
    match merge_vars_file w init e with
    | .error r => .error r
    | .ok (values, e1) =>
      match w.evalList (w.render parameter_file values) with
      | none => .error (2, e1)
      | some output => .ok (output, e1)

/-- `check_file` (source lines 181-190): exit with 2 when the file does
not exist. -/
def check_file {V : Type} (w : World V) (file : String) (e : Eff) :
    Except (Nat × Eff) (Bool × Eff) :=
  match w.fs file with
  | some _ => .ok (true, e)
  | none => .error (2, e)

/-- `save_to_file` (source lines 193-202): write
`json.dumps(content, sort_keys=True, indent=4)` to `<name>.<extension>`. -/
def save_to_file (name : String) (content : List J) (extension : String) (e : Eff) :
    Except (Nat × Eff) Eff :=
  .ok ⟨e.calls,
    e.written ++ [(name ++ "." ++ extension, json_dumps_sorted_indent4 (J.arr content))]⟩

/-- `init_variables` (source lines 205-240): check the three input files
and assemble the computed names and the template body. -/
def init_variables {V : Type} (w : World V) (env t : String) (e : Eff) :
    Except (Nat × Eff) (InitResult × Eff) :=
  match check_file w (values_file_of env) e with
  | .error r => .error r
  | .ok (_, e1) =>
    match check_file w t e1 with
    | .error r => .error r
    | .ok (_, e2) =>
      match check_file w (json_file_of t) e2 with
      | .error r => .error r
      | .ok (_, e3) =>
        match w.fs t with
        | none => .error (2, e3)
        | some stack_body =>
          .ok (⟨values_file_of env, t_file_name_of t, json_file_of t,
            stack_name_of env t, stack_body⟩, e3)

/-- A parsed command-line option, the interface at which the spec places
argument parsing (`getopt` output, source line 250). -/
inductive Opt where
  | help
  | environment (s : String)
  | template (s : String)
  | action (s : String)
deriving DecidableEq

/-- The option loop of `main` (source lines 253-262): `-h` prints the
usage string and exits with 2 immediately; the other options assign, the
last occurrence winning. -/
def processOpts : List Opt → String × String × String → Except Nat (String × String × String)
  | [], acc => .ok acc
  | .help :: _, _ => .error 2
  | .environment s :: rest, (_, t, a) => processOpts rest (s, t, a)
  | .template s :: rest, (e, _, a) => processOpts rest (e, s, a)
  | .action s :: rest, (e, t, _) => processOpts rest (e, t, s)

/-- The body of `main` after option processing (source lines 264-286):
validate the action, environment and template, build the variables, then
run the deploy branch (line 278) and the fill branch (line 282) in
sequence; every raised error is caught at line 288 and exits with 2. -/
def run_action {V : Type} (w : World V) (environment template action : String) :
    Except (Nat × Eff) Eff :=
  if action = "" then .error (2, emptyEff)
  else if ¬ (action = "fill" ∨ action = "deploy") then .error (2, emptyEff)
  else if environment = "" then .error (2, emptyEff)
  else if template = "" then .error (2, emptyEff)
  else
    match init_variables w environment template emptyEff with
    | .error r => .error r
    | .ok (init, e1) =>
      match (if action = "deploy" then
              match fill_json w init e1 with
              | .error r => Except.error r
              | .ok (filled, e2) => deploy_stack w init filled e2
            else Except.ok e1) with
      | .error r => .error r
      | .ok e2 =>
        if action = "fill" then
          match fill_json w init e2 with
          | .error r => .error r
          | .ok (filled, e3) => save_to_file init.stackName filled "json" e3
        else .ok e2

/-- `main` (source lines 243-291) over parsed options. -/
def main {V : Type} (w : World V) (argvOpts : List Opt) : Except (Nat × Eff) Eff :=
  match processOpts argvOpts ("", "", "") with
  | .error code => .error (code, emptyEff)
  | .ok (environment, template, action) => run_action w environment template action

/-! ## Stack Existence Prober (C2) -/

/-- A world whose `describe_stacks` call fails with a throttling
`ClientError` for every stack. -/
def wThrottled : World Unit :=
  ⟨fun _ => none, fun _ => DescribeOutcome.clientError AwsErrorCode.throttling,
    true, true, true, true, fun _ => 0, fun _ _ => "", fun _ => none, fun _ => none⟩

/-- C2 fails on the code: `stack_exists` (source line 39) catches every
`ClientError`, so when `describe_stacks` fails with a throttling error —
not a not-found response — the prober still classifies the stack as
absent (returns `False`) instead of surfacing a fatal error; its model
cannot even exit. -/
theorem stack_exists_masks_throttling :
    stack_exists wThrottled "mystack" emptyEff
      = (false, ⟨[RemoteCall.describeStacks "mystack"], []⟩) := rfl

/-! ## Deployment Orchestrator path selection (C5) -/

def isCreateChangeSetFor (sn : String) : RemoteCall → Bool
  | .createChangeSet sn2 _ => sn2 == sn
  | _ => false

def isCreateStackFor (sn : String) : RemoteCall → Bool
  | .createStack sn2 => sn2 == sn
  | _ => false

/-- C5: in an apply invocation, for every prober outcome `deploy_stack`
issues exactly one `create_change_set` request when the describe call
succeeded (stack present) and none otherwise, and exactly one
`create_stack` request when it did not (stack absent) and none
otherwise: exactly one of the two paths runs, never both and never
neither. -/
theorem deploy_exactly_one_path {V : Type} (w : World V) (init : InitResult)
    (json_parameters : List J) :
    ((effOf (deploy_stack w init json_parameters emptyEff)).calls.countP
        (isCreateChangeSetFor init.stackName)
      = if w.describeOutcome init.stackName = DescribeOutcome.success then 1 else 0)
    ∧ ((effOf (deploy_stack w init json_parameters emptyEff)).calls.countP
        (isCreateStackFor init.stackName)
      = if w.describeOutcome init.stackName = DescribeOutcome.success then 0 else 1) := by
  cases hd : w.describeOutcome init.stackName with
  | success =>
    cases hc : w.createChangeSetOk <;> cases hw : w.waitChangeSetOk <;>
      simp [deploy_stack, stack_exists, create_change_set, effOf, emptyEff, hd, hc, hw,
        isCreateChangeSetFor, isCreateStackFor, List.countP_cons, List.countP_nil]
  | clientError code =>
    cases hc : w.createStackOk <;> cases hw : w.waitStackOk <;>
      simp [deploy_stack, stack_exists, create_stack, effOf, emptyEff, hd, hc, hw,
        isCreateChangeSetFor, isCreateStackFor, List.countP_cons, List.countP_nil]

/-! ## Change Plan Builder naming (C7) -/

/-- C7: every change-set name generated by `create_change_set` has the
form `<stackName>-<suffix>` where the suffix is generated inside the
call by `id_generator` with size 6 over the uppercase-plus-digits
alphabet: it has length 6 and consists of alphanumeric characters. -/
theorem change_set_name_format {V : Type} (w : World V) (stack_name body : String)
    (parameters : List J) (e : Eff) :
    ∃ rest, (effOf (create_change_set w stack_name body parameters e)).calls
        = e.calls ++ RemoteCall.createChangeSet stack_name
            (stack_name ++ "-" ++ id_generator w 6 id_chars) :: rest
      ∧ (id_generator w 6 id_chars).length = 6
      ∧ ∀ c ∈ (id_generator w 6 id_chars).toList, c.isAlphanum = true := by
  have hlen : (id_generator w 6 id_chars).length = 6 := by
    rw [id_generator, List.length_asString]
    simp
  have hmem : ∀ c ∈ (id_generator w 6 id_chars).toList, c.isAlphanum = true := by
    intro c hcm
    rw [id_generator, List.toList_asString] at hcm
    obtain ⟨i, _, rfl⟩ := List.mem_map.mp hcm
    have h36 : id_chars.toList.length = 36 := by decide
    have hlt : w.randChoice i % id_chars.toList.length < 36 := by
      rw [h36]
      exact Nat.mod_lt _ (by omega)
    have hall : ∀ j, j < 36 → (id_chars.toList.getD j 'A').isAlphanum = true := by decide
    exact hall _ hlt
  cases hc : w.createChangeSetOk with
  | false =>
    refine ⟨[], ?_, hlen, hmem⟩
    simp [create_change_set, effOf, hc]
  | true =>
    cases hw : w.waitChangeSetOk with
    | false =>
      refine ⟨[RemoteCall.waitChangeSetCreateComplete
        (stack_name ++ "-" ++ id_generator w 6 id_chars) stack_name], ?_, hlen, hmem⟩
      simp [create_change_set, effOf, hc, hw]
    | true =>
      refine ⟨[RemoteCall.waitChangeSetCreateComplete
        (stack_name ++ "-" ++ id_generator w 6 id_chars) stack_name], ?_, hlen, hmem⟩
      simp [create_change_set, effOf, hc, hw]

/-- Witness for `deploy_exactly_one_path` at a concrete world and stack. -/
theorem deploy_exactly_one_path_witness :
    ((effOf (deploy_stack wThrottled
          ⟨"cf_vars/prod.yml", "vpc.yaml", "templates/vpc.json",
            "ct-prod-base-vpc-stack", "TB"⟩ [] emptyEff)).calls.countP
        (isCreateChangeSetFor
          (InitResult.stackName ⟨"cf_vars/prod.yml", "vpc.yaml", "templates/vpc.json",
            "ct-prod-base-vpc-stack", "TB"⟩))
      = if wThrottled.describeOutcome
            (InitResult.stackName ⟨"cf_vars/prod.yml", "vpc.yaml",
              "templates/vpc.json", "ct-prod-base-vpc-stack", "TB"⟩)
            = DescribeOutcome.success then 1 else 0)
    ∧ ((effOf (deploy_stack wThrottled
          ⟨"cf_vars/prod.yml", "vpc.yaml", "templates/vpc.json",
            "ct-prod-base-vpc-stack", "TB"⟩ [] emptyEff)).calls.countP
        (isCreateStackFor
          (InitResult.stackName ⟨"cf_vars/prod.yml", "vpc.yaml", "templates/vpc.json",
            "ct-prod-base-vpc-stack", "TB"⟩))
      = if wThrottled.describeOutcome
            (InitResult.stackName ⟨"cf_vars/prod.yml", "vpc.yaml",
              "templates/vpc.json", "ct-prod-base-vpc-stack", "TB"⟩)
            = DescribeOutcome.success then 0 else 1) :=
  deploy_exactly_one_path wThrottled
    ⟨"cf_vars/prod.yml", "vpc.yaml", "templates/vpc.json",
      "ct-prod-base-vpc-stack", "TB"⟩ []

/-- Witness for `change_set_name_format` at a concrete world and stack. -/
theorem change_set_name_format_witness :
    ∃ rest, (effOf (create_change_set wThrottled "ct-prod-base-vpc-stack" "TB" []
          emptyEff)).calls
        = emptyEff.calls ++ RemoteCall.createChangeSet "ct-prod-base-vpc-stack"
            ("ct-prod-base-vpc-stack" ++ "-" ++ id_generator wThrottled 6 id_chars)
            :: rest
      ∧ (id_generator wThrottled 6 id_chars).length = 6
      ∧ ∀ c ∈ (id_generator wThrottled 6 id_chars).toList, c.isAlphanum = true :=
  change_set_name_format wThrottled "ct-prod-base-vpc-stack" "TB" [] emptyEff

/-! ## Help flag (C10) -/

theorem processOpts_help (opts : List Opt) (h : Opt.help ∈ opts) :
    ∀ acc, processOpts opts acc = .error 2 := by
  induction opts with
  | nil => simp at h
  | cons o rest ih =>
    intro acc
    obtain ⟨e, t, a⟩ := acc
    cases o with
    | help => rfl
    | environment s =>
      have h1 : Opt.help ∈ rest := by
        rcases List.mem_cons.mp h with h2 | h2
        · exact Opt.noConfusion h2
        · exact h2
      exact ih h1 (s, t, a)
    | template s =>
      have h1 : Opt.help ∈ rest := by
        rcases List.mem_cons.mp h with h2 | h2
        · exact Opt.noConfusion h2
        · exact h2
      exact ih h1 (e, s, a)
    | action s =>
      have h1 : Opt.help ∈ rest := by
        rcases List.mem_cons.mp h with h2 | h2
        · exact Opt.noConfusion h2
        · exact h2
      exact ih h1 (e, t, s)

/-- C10: when the help flag is among the options, `main` prints the
usage string and exits with status 2 — the error exit code, not the
success code 0 — having issued no remote calls and written no files
(the returned effect record is empty); no merging or rendering runs. -/
theorem help_exits_with_error_code {V : Type} (w : World V) (opts : List Opt)
    (h : Opt.help ∈ opts) : main w opts = .error (2, emptyEff) := by
  rw [main, processOpts_help opts h]

/-- A world with no files and a healthy remote service, for witnesses. -/
def wDefault : World Unit :=
  ⟨fun _ => none, fun _ => DescribeOutcome.success, true, true, true, true,
    fun _ => 0, fun _ _ => "", fun _ => none, fun _ => none⟩

/-- Witness for `help_exits_with_error_code`. -/
theorem help_exits_with_error_code_witness :
    main wDefault [Opt.help] = .error (2, emptyEff) :=
  help_exits_with_error_code wDefault [Opt.help] (List.mem_cons_self _ _)

/-! ## Missing input files (C6) -/

/-- C6: whenever the environment values file, the template file, or the
co-located parameter-template file is missing from the file system, the
process exits with the designated error code 2 having issued zero remote
calls and written zero files, whatever the parsed options were. -/
theorem missing_file_exits_before_remote {V : Type} (w : World V) (opts : List Opt)
    (env t a : String) (hopts : processOpts opts ("", "", "") = .ok (env, t, a))
    (hmiss : w.fs (values_file_of env) = none ∨ w.fs t = none
      ∨ w.fs (json_file_of t) = none) :
    main w opts = .error (2, emptyEff) := by
  rw [main, hopts]
  show run_action w env t a = Except.error (2, emptyEff)
  unfold run_action
  by_cases ha0 : a = ""
  · rw [if_pos ha0]
  · rw [if_neg ha0]
    by_cases ha1 : a = "fill" ∨ a = "deploy"
    · rw [if_neg (not_not_intro ha1)]
      by_cases he : env = ""
      · rw [if_pos he]
      · rw [if_neg he]
        by_cases htm : t = ""
        · rw [if_pos htm]
        · rw [if_neg htm]
          cases hv : w.fs (values_file_of env) with
          | none => simp [init_variables, check_file, hv]
          | some c1 =>
            cases htf : w.fs t with
            | none => simp [init_variables, check_file, hv, htf]
            | some c2 =>
              cases hj : w.fs (json_file_of t) with
              | none => simp [init_variables, check_file, hv, htf, hj]
              | some c3 =>
                rcases hmiss with h | h | h
                · rw [hv] at h; exact Option.noConfusion h
                · rw [htf] at h; exact Option.noConfusion h
                · rw [hj] at h; exact Option.noConfusion h
    · rw [if_pos ha1]

/-- Witness for `missing_file_exits_before_remote`: a deploy invocation
against an empty file system. -/
theorem missing_file_exits_before_remote_witness :
    main wDefault
      [Opt.environment "prod", Opt.template "templates/vpc.yaml", Opt.action "deploy"]
      = .error (2, emptyEff) :=
  missing_file_exits_before_remote wDefault
    [Opt.environment "prod", Opt.template "templates/vpc.yaml", Opt.action "deploy"]
    "prod" "templates/vpc.yaml" "deploy" rfl (Or.inl rfl)

/-! ## Render-only mode (C8) -/

/-- C8: a fill (render-only) invocation that finds all its input files
runs only the Configuration Merger and the Parameter Renderer — the
returned trace contains no remote call — and writes exactly one file,
named `<computed stack name>.json`, containing the rendered parameter
list serialized by `json.dumps(·, sort_keys=True, indent=4)`. -/
theorem fill_writes_sorted_json {V : Type} (w : World V) (env t : String)
    (henv : ¬ env = "") (ht : ¬ t = "")
    (ctext vtext tbody ptxt : String) (common custom : List (String × V)) (out : List J)
    (hcf : w.fs COMMON_FILE_PATH = some ctext)
    (hcp : w.yamlParse ctext = some common)
    (hvf : w.fs (values_file_of env) = some vtext)
    (hvp : w.yamlParse vtext = some custom)
    (htf : w.fs t = some tbody)
    (hpf : w.fs (json_file_of t) = some ptxt)
    (heval : w.evalList (w.render ptxt (merge_vars_dicts common custom)) = some out) :
    main w [Opt.environment env, Opt.template t, Opt.action "fill"]
      = .ok ⟨[], [(stack_name_of env t ++ ".json",
          json_dumps_sorted_indent4 (J.arr out))]⟩ := by
  have hassoc : stack_name_of env t ++ "." ++ "json" = stack_name_of env t ++ ".json" := by
    rw [← String.toList_inj, toList_append, toList_append, toList_append,
      List.append_assoc]
    rfl
  simp [main, processOpts, run_action, init_variables, check_file, fill_json,
    merge_vars_file, save_to_file, emptyEff, hcf, hcp, hvf, hvp, htf, hpf, heval,
    henv, ht, hassoc]

/-- A concrete world holding the four input files of the spec's worked
example, with constant rendering and evaluation oracles. -/
def wFill : World Nat :=
  ⟨fun p =>
      if p = "cf_vars/common.yml" then some "CY"
      else if p = "cf_vars/prod.yml" then some "PY"
      else if p = "templates/vpc.yaml" then some "TB"
      else if p = "templates/vpc.json" then some "PT"
      else none,
    fun _ => DescribeOutcome.success, true, true, true, true, fun _ => 0,
    fun _ _ => "R",
    fun s =>
      if s = "CY" then some [("a", 1)]
      else if s = "PY" then some [("a", 2), ("b", 3)] else none,
    fun s => if s = "R" then some [J.str "ok"] else none⟩

/-- Witness for `fill_writes_sorted_json` on the spec's worked example. -/
theorem fill_writes_sorted_json_witness :
    main wFill [Opt.environment "prod", Opt.template "templates/vpc.yaml",
        Opt.action "fill"]
      = .ok ⟨[], [(stack_name_of "prod" "templates/vpc.yaml" ++ ".json",
          json_dumps_sorted_indent4 (J.arr [J.str "ok"]))]⟩ :=
  fill_writes_sorted_json wFill "prod" "templates/vpc.yaml" (by decide) (by decide)
    "CY" "PY" "TB" "PT" [("a", 1)] [("a", 2), ("b", 3)] [J.str "ok"]
    rfl rfl rfl rfl rfl rfl rfl

end CT
